import Mathlib

/-!
Verification development for the `structmap` code generator.

The Go sources are shallowly embedded: each Go function of the repository is
translated into an executable Lean definition over explicit state (the Go maps
become association lists with last-write-wins lookup, the mutable managers are
threaded as state values, and the unbounded Go recursion is given an explicit
fuel parameter whose exhaustion is a distinguished result).  Strings are
modelled with Lean `String`, with the handful of `strings.*` helpers the code
uses re-implemented by structural recursion over the character list so that
every definition evaluates inside the kernel.
-/

namespace Structmap

/-! ## String helpers (models of the `strings` package functions used) -/

/-- Whether `sub` is a prefix of `l` (character lists). -/
def isPrefixListOf : List Char → List Char → Bool
  | [], _ => true
  | _ :: _, [] => false
  | a :: as, b :: bs => a == b && isPrefixListOf as bs

/-- Whether `sub` occurs as a contiguous sublist of `l`. -/
def listHasSub (sub : List Char) : List Char → Bool
  | [] => isPrefixListOf sub []
  | c :: rest => isPrefixListOf sub (c :: rest) || listHasSub sub rest

/-- Model of Go `strings.Contains s sub`. -/
def goContains (s sub : String) : Bool :=
  listHasSub sub.data s.data

/-- Replace, left to right and without overlap, every occurrence of `sub` by
`repl`; `fuel` bounds the scan and is instantiated with the input length. -/
def replaceListFuel (sub repl : List Char) : Nat → List Char → List Char
  | 0, l => l
  | _ + 1, [] => []
  | n + 1, c :: rest =>
    if isPrefixListOf sub (c :: rest) then
      repl ++ replaceListFuel sub repl n ((c :: rest).drop sub.length)
    else
      c :: replaceListFuel sub repl n rest

/-- Model of Go `strings.ReplaceAll s sub repl` (for non-empty `sub`, the only
shape the code uses). -/
def replaceAll (s sub repl : String) : String :=
  if sub.data.isEmpty then s
  else ⟨replaceListFuel sub.data repl.data (s.data.length + 1) s.data⟩

/-- Go's `unicode.IsSpace` restricted to the ASCII space characters. -/
def isSpaceGo (c : Char) : Bool :=
  c == ' ' || c == '\t' || c == '\n' || c == '\r'

/-- Model of Go `strings.TrimSpace`. -/
def goTrimSpace (s : String) : String :=
  ⟨((s.data.dropWhile isSpaceGo).reverse.dropWhile isSpaceGo).reverse⟩

/-- Model of Go `strings.Trim s cutset` for a one-character cutset. -/
def goTrimChar (s : String) (c : Char) : String :=
  ⟨((s.data.dropWhile (· == c)).reverse.dropWhile (· == c)).reverse⟩

/-- Model of Go `strings.Split s sep` for a one-character separator. -/
def splitOnCharList (c : Char) : List Char → List (List Char)
  | [] => [[]]
  | x :: rest =>
    let r := splitOnCharList c rest
    if x == c then [] :: r
    else
      match r with
      | h :: t => (x :: h) :: t
      | [] => [[x]]

/-- `strings.Split s sep` (one-character separator), as strings. -/
def goSplitChar (s : String) (c : Char) : List String :=
  (splitOnCharList c s.data).map (fun l => ⟨l⟩)

/-- Model of Go `strings.Join`. -/
def goJoin : List String → String → String
  | [], _ => ""
  | [s], _ => s
  | s :: rest, sep => s ++ sep ++ goJoin rest sep

/-! ## Go map model

Go maps are embedded as association lists in insertion order; an insertion of
an existing key appends a new binding, and lookup prefers the latest binding,
which reproduces Go's overwrite semantics.  Iterating a Go map yields an
unspecified order, so every iteration point of the source takes the order as
an explicit parameter constrained to be a permutation of the bindings. -/

/-- Lookup with last-write-wins semantics. -/
def mapLookup : List (String × α) → String → Option α
  | [], _ => none
  | (k', v) :: rest, k =>
    match mapLookup rest k with
    | some r => some r
    | none => if k' == k then some v else none

/-- Insertion as used here: append; combined with `mapLookup` this models the
Go map assignment `m[k] = v`. -/
def mapInsertGo (l : List (String × α)) (k : String) (v : α) : List (String × α) :=
  l ++ [(k, v)]

/-! ## `internal/imports/imports-manager.go` -/

structure ImportManager where
  imports : List (String × String)
  aliasCounter : Nat
deriving Repr, DecidableEq

def NewImportManager : ImportManager :=
  { imports := [], aliasCounter := 1 }

/-- `(*ImportManager).AddImport`. -/
def AddImport (im : ImportManager) (importPath : String) : ImportManager :=
  if !goContains importPath "/" then im
  else
    let importPath := goTrimSpace importPath
    if importPath == "" then im
    else
      let importPath := goTrimChar importPath '"'
      if (mapLookup im.imports importPath).isSome then im
      else
        { imports := mapInsertGo im.imports importPath ("ref" ++ toString im.aliasCounter),
          aliasCounter := im.aliasCounter + 1 }

/-- `(*ImportManager).GetImportAlias`; an unregistered path yields the Go map
zero value `""`. -/
def GetImportAlias (im : ImportManager) (importPath : String) : String :=
  let importPath := goTrimChar importPath '"'
  (mapLookup im.imports importPath).getD ""

/-- The import line built for one map binding in `RenderImports`. -/
def importLineOf (p : String × String) : String :=
  "\t" ++ p.2 ++ " \"" ++ p.1 ++ "\""

/-- `(*ImportManager).RenderImports`.  The Go code ranges over the `imports`
map, whose iteration order is unspecified; `order` is that iteration order
(theorems constrain it to a permutation of `im.imports`). -/
def RenderImports (im : ImportManager) (order : List (String × String))
    (pattern : String) : String :=
  if im.imports.length == 0 then ""
  else
    let lines := (order.filter (fun p => goContains pattern (p.2 ++ "."))).map importLineOf
    "import (\n" ++ goJoin lines "\n" ++ "\n)"

/-! ## `internal/generator/generator.go`: configuration data model -/

structure ConversionTemplate where
  tmpl : String
  error : Bool
deriving Repr, DecidableEq

structure Conversion where
  sourceType : String
  destType : String
  conversion : ConversionTemplate
  reverseConversion : ConversionTemplate
  imports : List String
deriving Repr, DecidableEq

structure Conversions where
  conversions : List Conversion
deriving Repr, DecidableEq

structure TypeWithImportsTemplate where
  typeTemplate : String
  imports : List String
deriving Repr, DecidableEq

def NewTypeWithImportsTemplate (typeStr : String) (imports : List String) :
    TypeWithImportsTemplate :=
  { typeTemplate := typeStr, imports := imports }

structure FieldDefinition where
  name : String
  tag : String
  type : TypeWithImportsTemplate
deriving Repr, DecidableEq

structure AdditionalArg where
  name : String
  destField : String
  type : TypeWithImportsTemplate
deriving Repr, DecidableEq

structure CustomFieldMapping where
  sourceField : String
  destField : String
  sourceTag : String
  destTag : String
  tag : String
deriving Repr, DecidableEq

structure Mapping where
  From : TypeWithImportsTemplate
  To : TypeWithImportsTemplate
  funcName : String
  funcAdditionalArgs : List AdditionalArg
  customFieldMappings : List CustomFieldMapping
  customConversions : List Conversion
  tag : String
deriving Repr, DecidableEq

structure Config where
  outPackageName : String
  mappings : List Mapping
  debug : Bool
deriving Repr, DecidableEq

/-! ## Template rendering

The code feeds its type and conversion templates through Go's template
engine with a data map binding `ImportN`, `Source`, `Dest` and `Error`.
Every template the code constructs — and every template the documentation
admits — uses actions of the exact canonical spelling produced by
`NewFieldDefinition`, so template execution is embedded as the textual
substitution of those canonical placeholders. -/

/-- The canonical placeholder text for import index `i`. -/
def importPlaceholder (i : Nat) : String :=
  "\x7b\x7b .Import" ++ toString i ++ " \x7d\x7d"

/-- `TypeWithImportsTemplate.ExecuteTemplate`: render the template, binding
each `ImportN` to the alias of the `n`-th import path. -/
def ExecuteTemplate (t : TypeWithImportsTemplate) (im : ImportManager) : String :=
  (List.range t.imports.length).foldl
    (fun acc i =>
      replaceAll acc (importPlaceholder i) (GetImportAlias im (t.imports.getD i "")))
    t.typeTemplate

/-- `TypeWithImportsTemplate.GetUnaliasedType`: strip `\x7b\x7b .ImportN \x7d\x7d.`
prefixes from the template text. -/
def GetUnaliasedType (t : TypeWithImportsTemplate) : String :=
  (List.range t.imports.length).foldl
    (fun acc i => replaceAll acc (importPlaceholder i ++ ".") "")
    t.typeTemplate

/-- `TypeWithImportsTemplate.Equals`: rendered-text equality. -/
def typeEquals (t other : TypeWithImportsTemplate) (im : ImportManager) : Bool :=
  ExecuteTemplate t im == ExecuteTemplate other im

def GetSourceTypeWithImportsTemplate (c : Conversion) : TypeWithImportsTemplate :=
  NewTypeWithImportsTemplate c.sourceType c.imports

def GetDestTypeWithImportsTemplate (c : Conversion) : TypeWithImportsTemplate :=
  NewTypeWithImportsTemplate c.destType c.imports

/-- `(*Conversion).executeTemplate`: render a conversion template with
`Source`, `Dest`, `Error` and the per-conversion import aliases, and report
the rule's fallibility flag. -/
def conversionExecuteTemplate (c : Conversion) (tmplStr : String) (hasError : Bool)
    (sourceVar destVar errorVar : String) (im : ImportManager) : String × Bool :=
  let s := (List.range c.imports.length).foldl
    (fun acc i =>
      replaceAll acc (importPlaceholder i) (GetImportAlias im (c.imports.getD i "")))
    tmplStr
  let s := replaceAll s "\x7b\x7b .Source \x7d\x7d" sourceVar
  let s := replaceAll s "\x7b\x7b .Dest \x7d\x7d" destVar
  let s := replaceAll s "\x7b\x7b .Error \x7d\x7d" errorVar
  (s, hasError)

/-- `(*Conversion).ExecuteConversionTemplate`. -/
def ExecuteConversionTemplate (c : Conversion) (sourceVar destVar errorVar : String)
    (im : ImportManager) : String × Bool :=
  conversionExecuteTemplate c c.conversion.tmpl c.conversion.error
    sourceVar destVar errorVar im

/-- `(*Conversion).ExecuteReverseConversionTemplate`: an empty reverse
template degrades to a bare assignment that is not fallible. -/
def ExecuteReverseConversionTemplate (c : Conversion) (sourceVar destVar errorVar : String)
    (im : ImportManager) : String × Bool :=
  if c.reverseConversion.tmpl == "" then
    (destVar ++ " = " ++ sourceVar, false)
  else
    conversionExecuteTemplate c c.reverseConversion.tmpl c.reverseConversion.error
      sourceVar destVar errorVar im

/-! ## Conversion resolution (`findConversion`) -/

/-- The forward-match test of `findConversion`. -/
def equalsFunc (im : ImportManager) (conv : Conversion)
    (sourceTypeTemplate destTypeTemplate : TypeWithImportsTemplate) : Bool :=
  typeEquals (GetSourceTypeWithImportsTemplate conv) sourceTypeTemplate im &&
  typeEquals (GetDestTypeWithImportsTemplate conv) destTypeTemplate im

/-- The reverse-match test of `findConversion`; only eligible when a reverse
template exists. -/
def reverseEqualsFunc (im : ImportManager) (conv : Conversion)
    (sourceTypeTemplate destTypeTemplate : TypeWithImportsTemplate) : Bool :=
  typeEquals (GetDestTypeWithImportsTemplate conv) sourceTypeTemplate im &&
  typeEquals (GetSourceTypeWithImportsTemplate conv) destTypeTemplate im &&
  conv.reverseConversion.tmpl != ""

/-- One loop of `findConversion` over a rule list: per rule, forward match
before reverse match, in declaration order. -/
def findConvInList (im : ImportManager)
    (sourceTypeTemplate destTypeTemplate : TypeWithImportsTemplate) :
    List Conversion → Option (Conversion × Bool)
  | [] => none
  | conv :: rest =>
    if equalsFunc im conv sourceTypeTemplate destTypeTemplate then some (conv, false)
    else if reverseEqualsFunc im conv sourceTypeTemplate destTypeTemplate then some (conv, true)
    else findConvInList im sourceTypeTemplate destTypeTemplate rest

/-- `(*Generator).findConversion`: mapping-local rules
(`customConversions`) are searched before the global ones. -/
def findConversion (im : ImportManager)
    (sourceTypeTemplate destTypeTemplate : TypeWithImportsTemplate)
    (conversions customConversions : List Conversion) : Option (Conversion × Bool) :=
  match findConvInList im sourceTypeTemplate destTypeTemplate customConversions with
  | some r => some r
  | none => findConvInList im sourceTypeTemplate destTypeTemplate conversions

/-! ## Struct tags

`tagValue` reads a key off a struct-tag string through
`reflect.StructTag.Get`; the stdlib lookup loop is embedded below.  The
unquoting step models `strconv.Unquote` for the escape-free and
simple-escape values that appear in struct tags. -/

/-- The character class the stdlib tag scanner accepts in a tag key. -/
def tagNamePred (c : Char) : Bool :=
  c.toNat > 32 && c != ':' && c != '"' && c.toNat != 127

/-- Scan a double-quoted value body: the input starts after the opening
quote; returns the raw inner characters and the remainder after the closing
quote, or `none` when the quote is unterminated. -/
def quotedScan : List Char → Option (List Char × List Char)
  | [] => none
  | '"' :: rest => some ([], rest)
  | '\\' :: c :: rest => (quotedScan rest).map (fun p => ('\\' :: c :: p.1, p.2))
  | '\\' :: [] => none
  | c :: rest => (quotedScan rest).map (fun p => (c :: p.1, p.2))

/-- Process the backslash escapes of a quoted value body
(`strconv.Unquote` restricted to the tag-value subset). -/
def unquoteSimple : List Char → List Char
  | [] => []
  | '\\' :: c :: rest =>
    (if c == 'n' then '\n' else if c == 't' then '\t' else c) :: unquoteSimple rest
  | '\\' :: [] => []
  | c :: rest => c :: unquoteSimple rest

/-- The lookup loop of `reflect.StructTag.Get`. -/
def structTagGetFuel (key : List Char) : Nat → List Char → List Char
  | 0, _ => []
  | fuel + 1, tag =>
    let tag := tag.dropWhile (· == ' ')
    match tag with
    | [] => []
    | _ :: _ =>
      let name := tag.takeWhile tagNamePred
      let rest := tag.dropWhile tagNamePred
      if name.isEmpty then []
      else
        match rest with
        | ':' :: '"' :: rest2 =>
          match quotedScan rest2 with
          | none => []
          | some p =>
            if name == key then unquoteSimple p.1
            else structTagGetFuel key fuel p.2
        | _ => []

/-- `reflect.StructTag.Get` on strings. -/
def goTagGet (tag key : String) : String :=
  ⟨structTagGetFuel key.data (tag.data.length + 1) tag.data⟩

/-- `tagValue` (generator.go): the tag value under `key`, cut at the first
comma; `-` or an absent value yields `""` (never matches). -/
def tagValue (tag key : String) : String :=
  if tag == "" then ""
  else
    let v := goTagGet tag key
    if v == "" then ""
    else
      let parts := goSplitChar v ','
      if parts.headD "" == "-" then "" else parts.headD ""

/-! ## Field matching (`findSourceForDest`, `findAdditionalArg`) -/

/-- `findAdditionalArg`: the first declared additional argument bound to the
destination field's name. -/
def findAdditionalArg : List AdditionalArg → FieldDefinition → Option AdditionalArg
  | [], _ => none
  | arg :: rest, dest =>
    if arg.destField == dest.name then some arg else findAdditionalArg rest dest

/-- The override loop of `findSourceForDest`, in declaration order: per
entry, the name-based form is tested before the tag-based form; the
tag-based form resolves to the first source field whose tag matches. -/
def findOverride (dest : FieldDefinition) (byName : List (String × FieldDefinition))
    (tag : String) (sourceFields : List FieldDefinition) :
    List CustomFieldMapping → Option FieldDefinition
  | [] => none
  | m :: rest =>
    let nameHit :=
      if m.destField != "" && m.destField == dest.name && m.sourceField != "" then
        mapLookup byName m.sourceField
      else none
    match nameHit with
    | some f => some f
    | none =>
      let tagHit :=
        if m.destTag != "" then
          let customTag := if m.tag == "" then tag else m.tag
          let tagVal := tagValue dest.tag customTag
          if tagVal != "" && tagVal == m.destTag then
            if m.sourceTag != "" then
              sourceFields.find? (fun f => tagValue f.tag customTag == m.sourceTag)
            else none
          else none
        else none
      match tagHit with
      | some f => some f
      | none => findOverride dest byName tag sourceFields rest

/-- `findSourceForDest`: overrides in declaration order, then exact name
equality, then tag equality under the mapping's tag key. -/
def findSourceForDest (dest : FieldDefinition)
    (byName byTag : List (String × FieldDefinition))
    (customFieldMappings : List CustomFieldMapping) (tag : String)
    (sourceFields : List FieldDefinition) : Option FieldDefinition :=
  match findOverride dest byName tag sourceFields customFieldMappings with
  | some f => some f
  | none =>
    match mapLookup byName dest.name with
    | some f => some f
    | none =>
      let tagVal := tagValue dest.tag tag
      if tagVal != "" then
        match mapLookup byTag tagVal with
        | some f => some f
        | none => none
      else none

/-! ## Go syntax trees

The resolver consumes the syntax trees produced by `go/parser` via
`golang.org/x/tools/go/packages`.  The embedding models the type-expression
shapes the tool handles (identifier, qualified selector, pointer, slice and
map types).  A qualified type reference `pkg.Name` is parsed by Go as an
`*ast.SelectorExpr`; an `*ast.Ident` never contains a dot, though the
embedding keeps identifiers as arbitrary strings exactly as the code's
defensive `strings.Contains(name, ".")` check does. -/

inductive TypeExpr where
  | identE (name : String)
  | selectorE (x sel : String)
  | starE (inner : TypeExpr)
  | arrayE (elt : TypeExpr)
  | mapE (key value : TypeExpr)
deriving Repr, DecidableEq

/-- One `*ast.Field`: an empty `names` list is an embedded (anonymous)
field; `tag` is the raw backtick-delimited literal when present. -/
structure RawField where
  names : List String
  type : TypeExpr
  tag : Option String
deriving Repr, DecidableEq

/-- The `Type` of a top-level `*ast.TypeSpec`. -/
inductive TypeDecl where
  | structDecl (fields : List RawField)
  | exprDecl (e : TypeExpr)
deriving Repr, DecidableEq

/-- One `*ast.ImportSpec`: optional explicit alias and the quoted path. -/
structure GoFileImport where
  name : Option String
  path : String
deriving Repr, DecidableEq

/-- One parsed file: its import declarations and its top-level type
declarations in `ast.Inspect` order. -/
structure GoFile where
  imports : List GoFileImport
  decls : List (String × TypeDecl)
deriving Repr, DecidableEq

/-- `packages.Package` restricted to the fields the tool reads
(`Name`, `PkgPath`, `Errors`, and the parsed `GoFiles`). -/
structure Package where
  name : String
  pkgPath : String
  errors : List String
  goFiles : List GoFile
deriving Repr, DecidableEq

/-- The outcome `packages.Load` reports for one path. -/
inductive LoadOutcome where
  | loadErr (msg : String)
  | pkgs (l : List Package)
deriving Repr, DecidableEq

/-- The build context: what `packages.Load` returns per package path
(deterministic per path); a path not in the environment loads no package. -/
def LoadEnv := List (String × LoadOutcome)

def envLookup (env : LoadEnv) (p : String) : LoadOutcome :=
  (mapLookup env p).getD (.pkgs [])

/-! ## `internal/packages/package-manager.go` -/

/-- `loadPackage`. -/
def loadPackage (env : LoadEnv) (pkgPath : String) : Except String Package :=
  match envLookup env pkgPath with
  | .loadErr msg => .error ("failed to load package " ++ pkgPath ++ ": " ++ msg)
  | .pkgs [] => .error ("package not found: " ++ pkgPath)
  | .pkgs (pkg :: _) =>
    if pkg.errors.length > 0 then .error ("package errors: " ++ toString pkg.errors)
    else .ok pkg

/-- The cache maps a path to the returned package pointer; `none` models the
nil pointer that `GetPackage` stores when the load failed. -/
structure PackageManager where
  packageCache : List (String × Option Package)
deriving Repr

def NewPackageManager : PackageManager :=
  { packageCache := [] }

/-- `(*PackageManager).GetPackage`: the Go pair `(pkg *Package, err error)`
becomes `(Option Package × Option String)`.  The load result — the nil
pointer included — is cached unconditionally. -/
def GetPackage (env : LoadEnv) (pm : PackageManager) (pkgPath : String) :
    (Option Package × Option String) × PackageManager :=
  match mapLookup pm.packageCache pkgPath with
  | some cached => ((cached, none), pm)
  | none =>
    match loadPackage env pkgPath with
    | .ok pkg => ((some pkg, none), ⟨mapInsertGo pm.packageCache pkgPath (some pkg)⟩)
    | .error e => ((none, some e), ⟨mapInsertGo pm.packageCache pkgPath none⟩)

/-! ## Errors of the generator

Go errors are strings built with `fmt.Errorf`; two extra constructors mark a
run-time panic (nil-pointer dereference) and the exhaustion of the explicit
fuel that stands in for Go's unbounded recursion. -/

inductive GenErr where
  | goError (msg : String)
  | nilPanic
  | outOfFuel
deriving Repr, DecidableEq

/-- `fmt.Errorf("<pre>%w", err)`; a panic or fuel exhaustion is not a Go
error value and passes through unwrapped. -/
def wrapErr (pre : String) : GenErr → GenErr
  | .goError s => .goError (pre ++ s)
  | e => e

/-! ## Import discovery (`findImportSpecForAlias` and friends) -/

structure ImportInfo where
  «alias» : Option String
  pkgName : String
  path : String
deriving Repr, DecidableEq

/-- `(*Generator).findImportSpecForAlias`: scan a file's import
declarations for one whose explicit alias or package name equals
`pkgAlias`; an exhausted scan returns the nil info with a nil error. -/
def findImportSpecForAlias (env : LoadEnv) :
    PackageManager → List GoFileImport → String →
    (Except GenErr (Option ImportInfo)) × PackageManager
  | pm, [], _ => (.ok none, pm)
  | pm, imp :: rest, pkgAlias =>
    let path := goTrimChar imp.path '"'
    match GetPackage env pm path with
    | ((_, some e), pm) => (.error (.goError e), pm)
    | ((none, none), pm) => (.error .nilPanic, pm)
    | ((some pkg, none), pm) =>
      match imp.name with
      | some a =>
        if a == pkgAlias then
          (.ok (some { «alias» := some a, pkgName := pkg.name, path := pkg.pkgPath }), pm)
        else if pkg.name == pkgAlias then
          (.ok (some { «alias» := none, pkgName := pkg.name, path := pkg.pkgPath }), pm)
        else findImportSpecForAlias env pm rest pkgAlias
      | none =>
        if pkg.name == pkgAlias then
          (.ok (some { «alias» := none, pkgName := pkg.name, path := pkg.pkgPath }), pm)
        else findImportSpecForAlias env pm rest pkgAlias

/-- The collecting traversal of `pkgAliasVisitor` (selector bases in
traversal order, duplicates included). -/
def pkgAliasVisitCollect : TypeExpr → List String
  | .identE _ => []
  | .selectorE x _ => [x]
  | .starE e => pkgAliasVisitCollect e
  | .arrayE e => pkgAliasVisitCollect e
  | .mapE k v => pkgAliasVisitCollect k ++ pkgAliasVisitCollect v

def dedupFirstAux (seen : List String) : List String → List String
  | [] => []
  | x :: rest =>
    if seen.contains x then dedupFirstAux seen rest
    else x :: dedupFirstAux (seen ++ [x]) rest

/-- `pkgAliasVisitor`: first-seen deduplicated package aliases of a type
expression (the `err` result of the Go function is always nil). -/
def pkgAliasVisitor (e : TypeExpr) : List String :=
  dedupFirstAux [] (pkgAliasVisitCollect e)

/-- Inner file scan of `findImportSpecsForExpression` for one alias. -/
def findAliasInFiles (env : LoadEnv) (pkgAlias : String) :
    PackageManager → List GoFile →
    (Except GenErr (Option ImportInfo)) × PackageManager
  | pm, [] => (.ok none, pm)
  | pm, f :: files =>
    match findImportSpecForAlias env pm f.imports pkgAlias with
    | (.error e, pm) => (.error e, pm)
    | (.ok none, pm) => findAliasInFiles env pkgAlias pm files
    | (.ok (some info), pm) => (.ok (some info), pm)

/-- Alias loop of `findImportSpecsForExpression`. -/
def findAliasesLoop (env : LoadEnv) (pkg : Package) (pkgPath : String) :
    PackageManager → List String →
    (Except GenErr (List ImportInfo)) × PackageManager
  | pm, [] => (.ok [], pm)
  | pm, pkgAlias :: rest =>
    match findAliasInFiles env pkgAlias pm pkg.goFiles with
    | (.error e, pm) => (.error e, pm)
    | (.ok none, pm) =>
      (.error (.goError ("import not found for package " ++ pkgAlias ++ " in " ++ pkgPath)), pm)
    | (.ok (some info), pm) =>
      match findAliasesLoop env pkg pkgPath pm rest with
      | (.error e, pm) => (.error e, pm)
      | (.ok infos, pm) => (.ok (info :: infos), pm)

/-- `(*Generator).findImportSpecsForExpression`. -/
def findImportSpecsForExpression (env : LoadEnv) (pm : PackageManager)
    (expression : TypeExpr) (pkgPath : String) :
    (Except GenErr (List ImportInfo)) × PackageManager :=
  let pkgAliases := pkgAliasVisitor expression
  if pkgAliases.length == 0 then (.ok [], pm)
  else
    match GetPackage env pm pkgPath with
    | ((_, some e), pm) =>
      (.error (.goError ("failed to load package " ++ pkgPath ++ ": " ++ e)), pm)
    | ((none, none), pm) => (.error .nilPanic, pm)
    | ((some pkg, none), pm) => findAliasesLoop env pkg pkgPath pm pkgAliases

/-- File scan of `resolveTypeForEmbeddedField`'s selector case. -/
def resolveSelectorInFiles (env : LoadEnv) (x sel currentPkgPath : String) :
    PackageManager → List GoFile →
    (Except GenErr (String × String)) × PackageManager
  | pm, [] =>
    (.error (.goError ("import not found for package " ++ x ++ " in " ++ currentPkgPath)), pm)
  | pm, f :: files =>
    match findImportSpecForAlias env pm f.imports x with
    | (.error e, pm) => (.error e, pm)
    | (.ok (some info), pm) => (.ok (info.path, sel), pm)
    | (.ok none, pm) => resolveSelectorInFiles env x sel currentPkgPath pm files

/-- `(*Generator).resolveTypeForEmbeddedField`: follow pointer wrappers and
qualified selectors down to a `(package path, type name)` pair. -/
def resolveTypeForEmbeddedField (env : LoadEnv) :
    PackageManager → TypeExpr → String →
    (Except GenErr (String × String)) × PackageManager
  | pm, .starE e, currentPkgPath => resolveTypeForEmbeddedField env pm e currentPkgPath
  | pm, .identE n, currentPkgPath => (.ok (currentPkgPath, n), pm)
  | pm, .selectorE x sel, currentPkgPath =>
    match GetPackage env pm currentPkgPath with
    | ((_, some e), pm) =>
      (.error (.goError ("failed to load package " ++ currentPkgPath ++ ": " ++ e)), pm)
    | ((none, none), pm) => (.error .nilPanic, pm)
    | ((some pkg, none), pm) => resolveSelectorInFiles env x sel currentPkgPath pm pkg.goFiles
  | pm, _, _ => (.error (.goError "unsupported embedded field type"), pm)

/-! ## Type resolution (`findStructDefinitionRecursive`)

The Go recursion is given explicit fuel via `Nat.rec` so every instance
computes by kernel reduction; `GenErr.outOfFuel` marks exhaustion.  The
`visited` map is passed by reference in Go, so it is threaded and returned
here. -/

/-- Result of one resolver call: the struct's raw fields and the package
path it was found in, with the updated package cache and visited set. -/
abbrev FindRes :=
  (Except GenErr (List RawField × String)) × PackageManager × List String

/-- State of the `ast.Inspect` walk over one file: `found`/`ferr` are the
`foundStruct`/`foundErr` locals (later matching declarations overwrite
earlier results, exactly as the walk continues after `return false`);
`abortE` models a Go panic or fuel exhaustion, which stops everything. -/
structure InspectState where
  pm : PackageManager
  visited : List String
  found : Option (List RawField × String)
  ferr : Option GenErr
  abortE : Option GenErr

/-- The `ast.Inspect` callback of `findStructDefinitionRecursive`, folded
over the file's type declarations.  `recur` is the recursive resolver call
at one unit less fuel. -/
def inspectDecls (env : LoadEnv)
    (recur : PackageManager → List String → String → String → FindRes)
    (pkgPath typeName : String) (f : GoFile) :
    InspectState → List (String × TypeDecl) → InspectState
  | st, [] => st
  | st, (declName, decl) :: rest =>
    if st.abortE.isSome then st
    else if declName != typeName then inspectDecls env recur pkgPath typeName f st rest
    else
      match decl with
      | .structDecl fields =>
        inspectDecls env recur pkgPath typeName f
          { st with found := some (fields, pkgPath) } rest
      | .exprDecl (.identE aliasTypeName) =>
        if goContains aliasTypeName "." then
          let parts := goSplitChar aliasTypeName '.'
          if parts.length != 2 then
            inspectDecls env recur pkgPath typeName f
              { st with ferr := some (.goError ("invalid qualified type: " ++ aliasTypeName)) } rest
          else
            let importPkgPath := parts.headD ""
            let importTypeName := (parts.drop 1).headD ""
            match findImportSpecForAlias env st.pm f.imports importPkgPath with
            | (.error .nilPanic, pm) => { st with pm := pm, abortE := some .nilPanic }
            | (.error _, pm) =>
              inspectDecls env recur pkgPath typeName f
                { st with
                  pm := pm,
                  ferr := some (.goError ("import path not found for " ++ importPkgPath)) } rest
            | (.ok none, pm) =>
              -- the Go code dereferences the nil `importInfo` here
              { st with pm := pm, abortE := some .nilPanic }
            | (.ok (some info), pm) =>
              match recur pm st.visited info.path importTypeName with
              | (.error .outOfFuel, pm, visited) =>
                { st with pm := pm, visited := visited, abortE := some .outOfFuel }
              | (.error .nilPanic, pm, visited) =>
                { st with pm := pm, visited := visited, abortE := some .nilPanic }
              | (.error e, pm, visited) =>
                inspectDecls env recur pkgPath typeName f
                  { st with pm := pm, visited := visited, ferr := some e } rest
              | (.ok res, pm, visited) =>
                inspectDecls env recur pkgPath typeName f
                  { st with pm := pm, visited := visited, found := some res } rest
        else
          match recur st.pm st.visited pkgPath aliasTypeName with
          | (.error .outOfFuel, pm, visited) =>
            { st with pm := pm, visited := visited, abortE := some .outOfFuel }
          | (.error .nilPanic, pm, visited) =>
            { st with pm := pm, visited := visited, abortE := some .nilPanic }
          | (.error e, pm, visited) =>
            inspectDecls env recur pkgPath typeName f
              { st with pm := pm, visited := visited, ferr := some e } rest
          | (.ok res, pm, visited) =>
            inspectDecls env recur pkgPath typeName f
              { st with pm := pm, visited := visited, found := some res } rest
      | .exprDecl _ =>
        -- `*ast.SelectorExpr` and every other expression shape match no
        -- case of the type switch: the declaration has no effect
        inspectDecls env recur pkgPath typeName f st rest

/-- The per-file loop of `findStructDefinitionRecursive`: after each file,
a found struct wins over a recorded error; otherwise continue. -/
def findInFiles (env : LoadEnv)
    (recur : PackageManager → List String → String → String → FindRes)
    (pkgPath typeName : String) :
    PackageManager → List String → List GoFile → FindRes
  | pm, visited, [] =>
    (.error (.goError ("type " ++ typeName ++ " not found in package " ++ pkgPath)), pm, visited)
  | pm, visited, f :: files =>
    let st := inspectDecls env recur pkgPath typeName f
      { pm := pm, visited := visited, found := none, ferr := none, abortE := none } f.decls
    match st.abortE with
    | some e => (.error e, st.pm, st.visited)
    | none =>
      match st.found with
      | some res => (.ok res, st.pm, st.visited)
      | none =>
        match st.ferr with
        | some e => (.error e, st.pm, st.visited)
        | none => findInFiles env recur pkgPath typeName st.pm st.visited files

/-- `(*Generator).findStructDefinitionRecursive`. -/
def findStructDefinitionRecursive (env : LoadEnv) (fuel : Nat) :
    PackageManager → List String → String → String → FindRes :=
  Nat.rec (motive := fun _ => PackageManager → List String → String → String → FindRes)
    (fun pm visited _ _ => (.error .outOfFuel, pm, visited))
    (fun _ ih pm visited pkgPath typeName =>
      let key := pkgPath ++ "." ++ typeName
      if visited.contains key then
        (.error (.goError ("circular type alias detected: " ++ key)), pm, visited)
      else
        let visited := visited ++ [key]
        match GetPackage env pm pkgPath with
        | ((_, some e), pm) =>
          (.error (.goError ("failed to load package " ++ pkgPath ++ ": " ++ e)), pm, visited)
        | ((none, none), pm) => (.error .nilPanic, pm, visited)
        | ((some pkg, none), pm) => findInFiles env ih pkgPath typeName pm visited pkg.goFiles)
    fuel

/-- `(*Generator).findStructDefinition`: fresh visited set per call. -/
def findStructDefinition (env : LoadEnv) (fuel : Nat) (pm : PackageManager)
    (pkgPath typeName : String) :
    (Except GenErr (List RawField × String)) × PackageManager :=
  let r := findStructDefinitionRecursive env fuel pm [] pkgPath typeName
  (r.1, r.2.1)

/-! ## Field extraction (`extractFieldsFromPackage`) -/

/-- `go/printer` output for the modelled type expressions. -/
def printExpr : TypeExpr → String
  | .identE n => n
  | .selectorE x sel => x ++ "." ++ sel
  | .starE e => "*" ++ printExpr e
  | .arrayE e => "[]" ++ printExpr e
  | .mapE k v => "map[" ++ printExpr k ++ "]" ++ printExpr v

/-- `NewFieldDefinition`: replace every occurrence of each import's alias
(or package name) in the printed type text by its indexed placeholder. -/
def NewFieldDefinition (name typeStr tag : String) (importInfos : List ImportInfo) :
    FieldDefinition :=
  let typeTemplate := (List.range importInfos.length).foldl
    (fun acc idx =>
      let info := importInfos.getD idx { «alias» := none, pkgName := "", path := "" }
      let old := info.alias.getD info.pkgName
      replaceAll acc old (importPlaceholder idx))
    typeStr
  { name := name, tag := tag,
    type := NewTypeWithImportsTemplate typeTemplate (importInfos.map (fun i => i.path)) }

abbrev ExtractRes := (Except GenErr (List FieldDefinition)) × PackageManager

/-- The field loop of `extractFieldsFromPackage`; `recurExtract` is the
recursive extraction (one unit less fuel) that `expandEmbeddedFields`
reaches — note it goes back through `findStructDefinition` with a fresh
visited set. -/
def extractFieldLoop (env : LoadEnv)
    (recurExtract : PackageManager → String → String → ExtractRes)
    (structPkgPath : String) :
    PackageManager → List RawField → ExtractRes
  | pm, [] => (.ok [], pm)
  | pm, fld :: rest =>
    let typ := printExpr fld.type
    match findImportSpecsForExpression env pm fld.type structPkgPath with
    | (.error e, pm) =>
      (.error (wrapErr "failed to find import specs for expression: " e), pm)
    | (.ok importInfos, pm) =>
      let tag := match fld.tag with
        | none => ""
        | some t => goTrimChar t '`'
      if fld.names.length == 0 then
        match resolveTypeForEmbeddedField env pm fld.type structPkgPath with
        | (.error e, pm) => (.error (wrapErr "failed to expand embedded field: " e), pm)
        | (.ok pt, pm) =>
          match recurExtract pm pt.1 pt.2 with
          | (.error e, pm) => (.error (wrapErr "failed to expand embedded field: " e), pm)
          | (.ok embeddedFields, pm) =>
            match extractFieldLoop env recurExtract structPkgPath pm rest with
            | (.error e, pm) => (.error e, pm)
            | (.ok fields, pm) => (.ok (embeddedFields ++ fields), pm)
      else
        match extractFieldLoop env recurExtract structPkgPath pm rest with
        | (.error e, pm) => (.error e, pm)
        | (.ok fields, pm) =>
          (.ok ((fld.names.map (fun nm => NewFieldDefinition nm typ tag importInfos)) ++ fields), pm)

/-- `(*Generator).extractFieldsFromPackage`. -/
def extractFieldsFromPackage (env : LoadEnv) (fuel : Nat) :
    PackageManager → String → String → ExtractRes :=
  Nat.rec (motive := fun _ => PackageManager → String → String → ExtractRes)
    (fun pm _ _ => (.error .outOfFuel, pm))
    (fun n ih pm pkgPath typeName =>
      match findStructDefinitionRecursive env (n + 1) pm [] pkgPath typeName with
      | (.error e, pm, _) => (.error e, pm)
      | (.ok fs, pm, _) => extractFieldLoop env ih fs.2 pm fs.1)
    fuel

/-! ## The generator -/

structure Generator where
  importManager : ImportManager
  packageManager : PackageManager
  typeToFieldsMap : List (String × List FieldDefinition)
  conversions : Conversions
  config : Config

def NewGenerator (config : Config) (conversions : Conversions) : Generator :=
  { importManager := NewImportManager,
    packageManager := NewPackageManager,
    typeToFieldsMap := [],
    conversions := conversions,
    config := config }

/-- `(*Generator).AddFields`. -/
def AddFields (g : Generator) (typeName : String) (fields : List FieldDefinition) :
    Generator :=
  { g with typeToFieldsMap := mapInsertGo g.typeToFieldsMap typeName fields }

/-- `(*Generator).GetFields`; the Go `(fields, exists)` pair is an option. -/
def GetFields (g : Generator) (typeName : String) : Option (List FieldDefinition) :=
  mapLookup g.typeToFieldsMap typeName

/-- `(*Generator).assignmentWithConversion`. -/
def assignmentWithConversion (g : Generator) (sourceExpr : String)
    (dest : FieldDefinition) (conversion : Option Conversion) (isReverse : Bool) :
    String × Bool :=
  let destExpr := "dst." ++ dest.name
  let errorExpr := "err"
  match conversion with
  | some c =>
    if isReverse then
      ExecuteReverseConversionTemplate c sourceExpr destExpr errorExpr g.importManager
    else
      ExecuteConversionTemplate c sourceExpr destExpr errorExpr g.importManager
  | none => (destExpr ++ " = " ++ sourceExpr, false)

/-- `(*Generator).assignmentLine`: injected argument first, then matched
source field, else the unmapped-field comment (never fallible). -/
def assignmentLine (g : Generator) (source : Option FieldDefinition)
    (dest : FieldDefinition) (conversions customConversions : List Conversion)
    (additionalArg : Option AdditionalArg) : String × Bool :=
  match additionalArg with
  | some arg =>
    match findConversion g.importManager arg.type dest.type conversions customConversions with
    | some ci => assignmentWithConversion g arg.name dest (some ci.1) ci.2
    | none => assignmentWithConversion g arg.name dest none false
  | none =>
    match source with
    | some s =>
      match findConversion g.importManager s.type dest.type conversions customConversions with
      | some ci => assignmentWithConversion g ("src." ++ s.name) dest (some ci.1) ci.2
      | none => assignmentWithConversion g ("src." ++ s.name) dest none false
    | none =>
      ("// no matching source found for field: " ++ dest.name ++
        ", consider adding an additional arg or aligning the fields", false)

/-- The `byName` lookup map built in `generateFunction` (later source
fields overwrite earlier ones with the same name). -/
def buildByName (sourceFields : List FieldDefinition) :
    List (String × FieldDefinition) :=
  sourceFields.foldl (fun m f => mapInsertGo m f.name f) []

/-- The `byTag` lookup map built in `generateFunction` (only non-empty tag
values; later fields overwrite earlier ones with the same value). -/
def buildByTag (sourceFields : List FieldDefinition) (tag : String) :
    List (String × FieldDefinition) :=
  sourceFields.foldl
    (fun m f =>
      let tv := tagValue f.tag tag
      if tv != "" then mapInsertGo m tv f else m) []

/-- `(*Generator).funcName`. -/
def funcNameOf (fromType toType : TypeWithImportsTemplate) : String :=
  "Map" ++ GetUnaliasedType fromType ++ "To" ++ GetUnaliasedType toType

/-- `(*AdditionalArg).RenderParameter`. -/
def RenderParameter (a : AdditionalArg) (im : ImportManager) : String :=
  a.name ++ " " ++ ExecuteTemplate a.type im

/-- `(*Generator).generateFunction`.  The debug branch only logs and is
dropped; everything else is translated clause by clause. -/
def generateFunction (g : Generator) (mapping : Mapping) : Except GenErr String :=
  match GetFields g mapping.From.typeTemplate, GetFields g mapping.To.typeTemplate with
  | some sourceFields, some destFields =>
    let tag := if mapping.tag == "" then "json" else mapping.tag
    let byName := buildByName sourceFields
    let byTag := buildByTag sourceFields tag
    let res := destFields.foldl
      (fun (acc : List String × Bool) destField =>
        let sourceField :=
          findSourceForDest destField byName byTag mapping.customFieldMappings tag sourceFields
        let additionalArg := findAdditionalArg mapping.funcAdditionalArgs destField
        let r := assignmentLine g sourceField destField
          g.conversions.conversions mapping.customConversions additionalArg
        ((if r.1 != "" then acc.1 ++ [r.1] else acc.1), acc.2 || r.2))
      ([], false)
    let assigns := res.1
    let hasError := res.2
    let fromTypeTemplate := mapping.From
    let toTypeTemplate := mapping.To
    let funcName :=
      if mapping.funcName == "" then funcNameOf fromTypeTemplate toTypeTemplate
      else mapping.funcName
    let funcArgs := ["src " ++ ExecuteTemplate fromTypeTemplate g.importManager] ++
      mapping.funcAdditionalArgs.map (fun a => RenderParameter a g.importManager)
    let retType := ExecuteTemplate toTypeTemplate g.importManager
    if hasError then
      .ok ("// " ++ funcName ++ " copies " ++ GetUnaliasedType fromTypeTemplate ++
        " → " ++ GetUnaliasedType toTypeTemplate ++ "\nfunc " ++ funcName ++ "(" ++
        goJoin funcArgs ", " ++ ") (dst " ++ retType ++ ", err error) \x7b\n    " ++
        goJoin assigns "\n\t" ++ "\n    return\n\x7d")
    else
      .ok ("// " ++ funcName ++ " copies " ++ GetUnaliasedType fromTypeTemplate ++
        " → " ++ GetUnaliasedType toTypeTemplate ++ "\nfunc " ++ funcName ++ "(" ++
        goJoin funcArgs ", " ++ ") (dst " ++ retType ++ ") \x7b\n    " ++
        goJoin assigns "\n\t" ++ "\n    return\n\x7d")
  | _, _ =>
    .error (.goError ("structs not found: " ++ mapping.From.typeTemplate ++ ", " ++
      mapping.To.typeTemplate))

/-- Register a list of import paths in declaration order. -/
def registerImports (g : Generator) (paths : List String) : Generator :=
  { g with importManager := paths.foldl AddImport g.importManager }

/-- The body of `Generate`'s mapping loop for one mapping. -/
def generateMapping (env : LoadEnv) (fuel : Nat) (g : Generator) (mapping : Mapping) :
    (Except GenErr String) × Generator :=
  let g := mapping.customConversions.foldl (fun g c => registerImports g c.imports) g
  let g := mapping.funcAdditionalArgs.foldl (fun g a => registerImports g a.type.imports) g
  let g := registerImports g mapping.From.imports
  let g := registerImports g mapping.To.imports
  let fromPkgPath := mapping.From.imports.headD ""
  match extractFieldsFromPackage env fuel g.packageManager fromPkgPath
      (GetUnaliasedType mapping.From) with
  | (.error e, pm) =>
    (.error (wrapErr ("failed to extract fields from " ++
      ExecuteTemplate mapping.From g.importManager ++ ": ") e),
     { g with packageManager := pm })
  | (.ok fromFields, pm) =>
    let g := { g with packageManager := pm }
    let g := fromFields.foldl (fun g f => registerImports g f.type.imports) g
    let toPkgPath := mapping.To.imports.headD ""
    match extractFieldsFromPackage env fuel g.packageManager toPkgPath
        (GetUnaliasedType mapping.To) with
    | (.error e, pm) =>
      (.error (wrapErr ("failed to extract fields to " ++
        ExecuteTemplate mapping.To g.importManager ++ ": ") e),
       { g with packageManager := pm })
    | (.ok toFields, pm) =>
      let g := { g with packageManager := pm }
      let g := toFields.foldl (fun g f => registerImports g f.type.imports) g
      let g := AddFields g mapping.From.typeTemplate fromFields
      let g := AddFields g mapping.To.typeTemplate toFields
      match generateFunction g mapping with
      | .error e => (.error (wrapErr "failed to generate function: " e), g)
      | .ok funcCode => (.ok funcCode, g)

/-- The mapping loop of `Generate`. -/
def generateMappings (env : LoadEnv) (fuel : Nat) :
    Generator → List Mapping → (Except GenErr (List String)) × Generator
  | g, [] => (.ok [], g)
  | g, mapping :: rest =>
    match generateMapping env fuel g mapping with
    | (.error e, g) => (.error e, g)
    | (.ok funcCode, g) =>
      match generateMappings env fuel g rest with
      | (.error e, g) => (.error e, g)
      | (.ok funcs, g) => (.ok (funcCode :: funcs), g)

/-- Everything `Generate` does before rendering the import block: register
the global conversions' imports, process every mapping, and join the
function bodies. -/
def generateCore (env : LoadEnv) (fuel : Nat) (g : Generator) :
    (Except GenErr String) × Generator :=
  let g := g.conversions.conversions.foldl (fun g c => registerImports g c.imports) g
  match generateMappings env fuel g g.config.mappings with
  | (.error e, g) => (.error e, g)
  | (.ok funcs, g) => (.ok (goJoin funcs "\n\n"), g)

/-- `(*Generator).Generate`.  `renderOrder` is the iteration order of
the registration map inside `RenderImports` (unspecified in Go). -/
def Generate (env : LoadEnv) (fuel : Nat) (g : Generator)
    (renderOrder : List (String × String)) : (Except GenErr String) × Generator :=
  match generateCore env fuel g with
  | (.error e, g) => (.error e, g)
  | (.ok funcCode, g) =>
    let importCode := RenderImports g.importManager renderOrder funcCode
    (.ok ("// Code generated by structmap; DO NOT EDIT.\npackage " ++
      g.config.outPackageName ++ "\n\n" ++ importCode ++ "\n\n" ++ funcCode ++ "\n"), g)

/-! ## Concrete fixtures used by the theorems -/

/-- A plain `ID string` field. -/
def fldID : RawField := { names := ["ID"], type := .identE "string", tag := none }

/-- Package `m/x` declaring `type A = B` (a same-module alias, an
`*ast.Ident`) and `type B struct \x7b ID string \x7d`. -/
def pkgAliasM : Package :=
  { name := "m", pkgPath := "m/x", errors := [],
    goFiles := [⟨[], [("A", .exprDecl (.identE "B")), ("B", .structDecl [fldID])]⟩] }

def envAlias : LoadEnv := [("m/x", .pkgs [pkgAliasM])]

/-- Package `m1` (name `pkg1`) declaring `type A pkg2.B` — which the Go
parser represents as an `*ast.SelectorExpr` — importing `m2`. -/
def pkgSel1 : Package :=
  { name := "pkg1", pkgPath := "m1", errors := [],
    goFiles := [⟨[⟨none, "m2"⟩], [("A", .exprDecl (.selectorE "pkg2" "B"))]⟩] }

/-- Package `m2` (name `pkg2`) declaring `type B struct \x7b ID string \x7d`. -/
def pkgSel2 : Package :=
  { name := "pkg2", pkgPath := "m2", errors := [],
    goFiles := [⟨[], [("B", .structDecl [fldID])]⟩] }

def envSel : LoadEnv := [("m1", .pkgs [pkgSel1]), ("m2", .pkgs [pkgSel2])]

/-- The same declaration in the shape the dead `*ast.Ident` branch expects:
an identifier whose name is literally `pkg2.B` (never produced by the
parser). -/
def pkgDot1 : Package :=
  { name := "pkg1", pkgPath := "m1", errors := [],
    goFiles := [⟨[⟨none, "m2"⟩], [("A", .exprDecl (.identE "pkg2.B"))]⟩] }

def envDot : LoadEnv := [("m1", .pkgs [pkgDot1]), ("m2", .pkgs [pkgSel2])]

/-- Package with the alias cycle `type A = B; type B = A`. -/
def pkgCycA : Package :=
  { name := "m", pkgPath := "m/x", errors := [],
    goFiles := [⟨[], [("A", .exprDecl (.identE "B")), ("B", .exprDecl (.identE "A"))]⟩] }

def envCycA : LoadEnv := [("m/x", .pkgs [pkgCycA])]

/-- Package with the legal-Go embedding cycle
`type A struct \x7b *B \x7d; type B struct \x7b *A \x7d`. -/
def pkgCycE : Package :=
  { name := "m", pkgPath := "m/x", errors := [],
    goFiles := [⟨[], [("A", .structDecl [⟨[], .starE (.identE "B"), none⟩]),
                      ("B", .structDecl [⟨[], .starE (.identE "A"), none⟩])]⟩] }

def envCycE : LoadEnv := [("m/x", .pkgs [pkgCycE])]

/-- The package cache after `m/x` has been loaded from `envCycE`. -/
def pmCycLoaded : PackageManager := ⟨[("m/x", some pkgCycE)]⟩

/-! ## C9 — the cached loader caches the nil package of a failed load -/

/-- C9: the claim fails on the code.  For a path that cannot be loaded, the
first `GetPackage` call returns the error, but it also caches the nil
package pointer; the second call hits the cache and returns `(nil, nil)` —
success with a nil package, contradicting the contract that every call for
a failing path yields a descriptive error. -/
theorem C9_nil_package_cached :
    (GetPackage [] NewPackageManager "badpkg").1 =
      (none, some "package not found: badpkg") ∧
    (GetPackage [] (GetPackage [] NewPackageManager "badpkg").2 "badpkg").1 =
      (none, none) :=
  ⟨rfl, rfl⟩

/-! ## C2 — alias traversal: same-module works, cross-module does not -/

/-- C2: the claim fails on the code.  A same-module alias (`*ast.Ident`)
recurses and returns the target's fields, but a cross-module alias
`type A pkg2.B` is an `*ast.SelectorExpr`, which matches no case of the
resolver's type switch, so resolution ends in the not-found error; the
dotted-name handling that would resolve it sits in the `*ast.Ident` case,
which the parser never produces for qualified types (third conjunct:
on that never-produced shape the code would indeed recurse into `m2`). -/
theorem C2_alias_resolution :
    (findStructDefinition envAlias 10 NewPackageManager "m/x" "A").1 =
      .ok ([fldID], "m/x") ∧
    (findStructDefinition envSel 10 NewPackageManager "m1" "A").1 =
      .error (.goError "type A not found in package m1") ∧
    (findStructDefinition envDot 10 NewPackageManager "m1" "A").1 =
      .ok ([fldID], "m2") :=
  ⟨rfl, rfl, rfl⟩

/-! ## C6 — a forward-only rule applied in reverse -/

/-- C6: confirmed.  `ExecuteReverseConversionTemplate` with an empty
reverse template emits the bare assignment and reports no error; and in the
full assignment path, a rule whose reverse template is absent is not
eligible as a reverse match, so the field degrades to the bare
`dst.X = src.Y` copy with no fallibility. -/
theorem C6_reverse_without_template :
    (∀ (c : Conversion) (s d e : String) (im : ImportManager),
      c.reverseConversion.tmpl = "" →
      ExecuteReverseConversionTemplate c s d e im = (d ++ " = " ++ s, false)) ∧
    (∀ (g : Generator) (s dest : FieldDefinition) (rule : Conversion),
      rule.reverseConversion.tmpl = "" →
      equalsFunc g.importManager rule s.type dest.type = false →
      assignmentLine g (some s) dest [rule] [] none =
        ("dst." ++ dest.name ++ " = " ++ ("src." ++ s.name), false)) := by
  constructor
  · intro c s d e im h
    simp [ExecuteReverseConversionTemplate, h]
  · intro g s dest rule h1 h2
    simp [assignmentLine, findConversion, findConvInList, reverseEqualsFunc, h1, h2,
      assignmentWithConversion]

/-- A conversion rule with a forward template only. -/
def convFwdOnly : Conversion :=
  { sourceType := "int", destType := "*int",
    conversion := ⟨"\x7b\x7b .Dest \x7d\x7d = &\x7b\x7b .Source \x7d\x7d", false⟩,
    reverseConversion := ⟨"", false⟩,
    imports := [] }

/-- An empty generator used to exercise the assignment path. -/
def gEmpty : Generator :=
  NewGenerator { outPackageName := "p", mappings := [], debug := false } ⟨[]⟩

def fSrcPtrInt : FieldDefinition := { name := "S", tag := "", type := ⟨"*int", []⟩ }

def fDstInt : FieldDefinition := { name := "D", tag := "", type := ⟨"int", []⟩ }

/-- Witness for C6 at the concrete forward-only rule, applied in the
reverse direction (`*int` source, `int` destination). -/
theorem C6_witness :
    ExecuteReverseConversionTemplate convFwdOnly "src.S" "dst.D" "err" NewImportManager =
      ("dst.D = src.S", false) ∧
    assignmentLine gEmpty (some fSrcPtrInt) fDstInt [convFwdOnly] [] none =
      ("dst.D = src.S", false) :=
  ⟨C6_reverse_without_template.1 convFwdOnly "src.S" "dst.D" "err" NewImportManager rfl,
   C6_reverse_without_template.2 gEmpty fSrcPtrInt fDstInt convFwdOnly rfl rfl⟩

/-! ## C8 — unmapped destination fields degrade to a comment -/

/-- C8: confirmed.  With no source, no override hit and no injected
argument, `assignmentLine` produces the descriptive comment naming the
field and is not fallible; and `generateFunction` succeeds whenever both
field lists are in the store — its only failure path is the missing-struct
lookup, so unmapped fields never abort generation. -/
theorem C8_unmapped_field_comment :
    (∀ (g : Generator) (dest : FieldDefinition) (convs customs : List Conversion),
      assignmentLine g none dest convs customs none =
        ("// no matching source found for field: " ++ dest.name ++
          ", consider adding an additional arg or aligning the fields", false)) ∧
    (∀ (g : Generator) (mapping : Mapping) (sf df : List FieldDefinition),
      GetFields g mapping.From.typeTemplate = some sf →
      GetFields g mapping.To.typeTemplate = some df →
      ∃ s, generateFunction g mapping = .ok s) := by
  constructor
  · intro g dest convs customs
    rfl
  · intro g mapping sf df h1 h2
    simp only [generateFunction, h1, h2]
    split <;> (try split) <;> exact ⟨_, rfl⟩

/-- A destination field that matches nothing. -/
def fNoMatch : FieldDefinition := { name := "Lost", tag := "", type := ⟨"int", []⟩ }

/-- A trivial mapping between the stored type keys `A` and `B`. -/
def mappingW : Mapping :=
  { From := ⟨"A", []⟩, To := ⟨"B", []⟩, funcName := "", funcAdditionalArgs := [],
    customFieldMappings := [], customConversions := [], tag := "" }

/-- A generator whose store has fields for `A` and `B`, where `B`'s only
field has no matching source. -/
def gStore : Generator := AddFields (AddFields gEmpty "A" [fSrcPtrInt]) "B" [fNoMatch]

/-- Witness for C8: the concrete unmapped field produces the comment, and
the function body is still generated. -/
theorem C8_witness :
    assignmentLine gEmpty none fNoMatch [] [] none =
      ("// no matching source found for field: " ++ fNoMatch.name ++
        ", consider adding an additional arg or aligning the fields", false) ∧
    ∃ s, generateFunction gStore mappingW = .ok s :=
  ⟨C8_unmapped_field_comment.1 gEmpty fNoMatch [] [],
   C8_unmapped_field_comment.2 gStore mappingW [fSrcPtrInt] [fNoMatch] rfl rfl⟩

/-! ## C3 — embedded-field expansion has no cycle guard -/

/-- What one unwinding of the embedded-field expansion adds around the
recursive extraction for the two-struct pointer-embedding cycle. -/
def cycStep : ExtractRes → ExtractRes
  | (.error e, pm) => (.error (wrapErr "failed to expand embedded field: " e), pm)
  | (.ok efs, pm) => (.ok (efs ++ []), pm)

/-- In `envCycE`, extracting `A` at any fuel steps to extracting `B` at one
unit less, and vice versa, so the extraction consumes all fuel (the Go
original recurses forever: `findStructDefinition` starts a fresh visited
set on every embedded expansion). -/
theorem cycE_aux (n : Nat) :
    extractFieldsFromPackage envCycE n pmCycLoaded "m/x" "A" =
      (.error .outOfFuel, pmCycLoaded) ∧
    extractFieldsFromPackage envCycE n pmCycLoaded "m/x" "B" =
      (.error .outOfFuel, pmCycLoaded) := by
  induction n with
  | zero => exact ⟨rfl, rfl⟩
  | succ n ih =>
    constructor
    · calc extractFieldsFromPackage envCycE (n + 1) pmCycLoaded "m/x" "A"
          = cycStep (extractFieldsFromPackage envCycE n pmCycLoaded "m/x" "B") := rfl
        _ = cycStep (.error .outOfFuel, pmCycLoaded) := by rw [ih.2]
        _ = (.error .outOfFuel, pmCycLoaded) := rfl
    · calc extractFieldsFromPackage envCycE (n + 1) pmCycLoaded "m/x" "B"
          = cycStep (extractFieldsFromPackage envCycE n pmCycLoaded "m/x" "A") := rfl
        _ = cycStep (.error .outOfFuel, pmCycLoaded) := by rw [ih.1]
        _ = (.error .outOfFuel, pmCycLoaded) := rfl

/-- C3: the claim fails on the code.  First conjunct: on the legal-Go
pointer-embedding cycle `type A struct \x7b *B \x7d; type B struct \x7b *A \x7d`,
field extraction exhausts every fuel bound — the Go original never
terminates, because `expandEmbeddedFields` re-enters `findStructDefinition`
with a fresh visited set, so no cycle is ever detected.  Second conjunct:
the visited set does catch pure alias cycles reached within a single
resolver call. -/
theorem C3_embedded_cycle_nontermination :
    (∀ fuel, (extractFieldsFromPackage envCycE fuel NewPackageManager "m/x" "A").1 =
      .error .outOfFuel) ∧
    (findStructDefinition envCycA 10 NewPackageManager "m/x" "A").1 =
      .error (.goError "circular type alias detected: m/x.A") := by
  constructor
  · intro fuel
    match fuel with
    | 0 => rfl
    | n + 1 =>
      calc (extractFieldsFromPackage envCycE (n + 1) NewPackageManager "m/x" "A").1
          = (cycStep (extractFieldsFromPackage envCycE n pmCycLoaded "m/x" "B")).1 := rfl
        _ = .error .outOfFuel := by rw [(cycE_aux n).2]; rfl
  · rfl

/-! ## C10 — tag values are cut at the first comma -/

theorem splitOnCharList_ne_nil (c : Char) (l : List Char) :
    splitOnCharList c l ≠ [] := by
  cases l with
  | nil => simp [splitOnCharList]
  | cons x rest =>
    simp only [splitOnCharList]
    split
    · simp
    · split <;> simp

theorem splitOnCharList_headD (c : Char) (l : List Char) :
    (splitOnCharList c l).headD [] = l.takeWhile (fun x => x != c) := by
  induction l with
  | nil => rfl
  | cons x rest ih =>
    simp only [splitOnCharList, List.takeWhile]
    rcases hx : x == c with _ | _
    · have hbne : (x != c) = true := by simp [bne, hx]
      simp only [hx, hbne, Bool.false_eq_true, if_false]
      rcases hr : splitOnCharList c rest with _ | ⟨h, t⟩
      · exact absurd hr (splitOnCharList_ne_nil c rest)
      · rw [hr] at ih
        simp only [List.headD_cons] at ih ⊢
        rw [ih]
    · have hbne : (x != c) = false := by simp [bne, hx]
      simp [hx, hbne]

theorem takeWhile_append_comma (l1 l2 : List Char)
    (h : l1.all (fun x => x != ',') = true) :
    (l1 ++ ',' :: l2).takeWhile (fun x => x != ',') = l1 := by
  induction l1 with
  | nil => simp [List.takeWhile]
  | cons a l1 ih =>
    simp only [List.all_cons, Bool.and_eq_true] at h
    rw [List.cons_append]
    simp only [List.takeWhile, h.1]
    exact congrArg _ (ih h.2)

/-- The tag string `json:"-"` on a field: such a field never enters the
`byTag` map. -/
def fDash : FieldDefinition := { name := "X", tag := "json:\"-\"", type := ⟨"int", []⟩ }

/-- C10: confirmed.  Whenever the raw tag value under `key` is
`s ++ "," ++ t` with `s` comma-free, the value used for matching is `s`
alone (or nothing when `s` is `-`); concretely `json:"id,omitempty"`
matches on `id`, and `-`, with or without options, and an absent
annotation never match. -/
theorem C10_tag_first_comma :
    (∀ (tag key s t : String), goTagGet tag key = s ++ "," ++ t →
      s.data.all (fun x => x != ',') = true →
      tagValue tag key = if s == "-" then "" else s) ∧
    goTagGet "json:\"id,omitempty\"" "json" = "id,omitempty" ∧
    tagValue "json:\"id,omitempty\"" "json" = "id" ∧
    tagValue "json:\"-\"" "json" = "" ∧
    tagValue "json:\"-,omitempty\"" "json" = "" ∧
    tagValue "" "json" = "" ∧
    mapLookup (buildByTag [fDash] "json") "-" = none := by
  refine ⟨?_, rfl, rfl, rfl, rfl, rfl, rfl⟩
  intro tag key s t h hall
  have hdata : (s ++ "," ++ t).data = s.data ++ ',' :: t.data := by
    rw [String.data_append, String.data_append, List.append_assoc]
    rfl
  have hne : ¬ (s ++ "," ++ t) = "" := by
    intro he
    have hd := congrArg String.data he
    rw [hdata] at hd
    simp at hd
  have htagne : ¬ (tag = "") := by
    intro he
    subst he
    have : ("" : String) = s ++ "," ++ t := by
      calc ("" : String) = goTagGet "" key := rfl
        _ = s ++ "," ++ t := h
    exact hne this.symm
  have hhead : (goSplitChar (s ++ "," ++ t) ',').headD "" = s := by
    unfold goSplitChar
    rcases hr : splitOnCharList ',' (s ++ "," ++ t).data with _ | ⟨hd, tl⟩
    · exact absurd hr (splitOnCharList_ne_nil _ _)
    · have := splitOnCharList_headD ',' (s ++ "," ++ t).data
      rw [hr] at this
      simp only [List.headD_cons] at this
      rw [hdata, takeWhile_append_comma s.data t.data hall] at this
      simp [this]
  unfold tagValue
  rw [h]
  simp only [beq_iff_eq, htagne, if_false, hne, hhead]

/-! ## C7 — import registration and pruning -/

theorem mapLookup_append_single (l : List (String × α)) (k x : String) (v : α) :
    mapLookup (l ++ [(k, v)]) x = if k == x then some v else mapLookup l x := by
  induction l with
  | nil => rfl
  | cons p rest ih =>
    rcases p with ⟨k', v'⟩
    rw [List.cons_append]
    simp only [mapLookup]
    rw [ih]
    by_cases hk : (k == x) = true
    · simp [hk]
    · simp only [hk, Bool.false_eq_true, if_false]

/-- `AddImport` never registers a path twice: the second call with the same
argument is the identity. -/
theorem addImport_idem (im : ImportManager) (p : String) :
    AddImport (AddImport im p) p = AddImport im p := by
  unfold AddImport
  by_cases h1 : (!goContains p "/") = true
  · simp [h1]
  · simp only [h1, Bool.false_eq_true, if_false]
    by_cases h2 : (goTrimSpace p == "") = true
    · simp [h2]
    · simp only [h2, Bool.false_eq_true, if_false]
      by_cases h3 : (mapLookup im.imports (goTrimChar (goTrimSpace p) '"')).isSome = true
      · simp [h3, h1, h2]
      · simp only [h3, Bool.false_eq_true, if_false, h1, h2, mapInsertGo]
        rw [mapLookup_append_single]
        simp

/-- One `AddImport` step preserves the `ref1, ref2, …` numbering
invariant. -/
theorem addImport_numbering (im : ImportManager) (p : String)
    (h1 : im.imports.map Prod.snd =
      (List.range im.imports.length).map (fun i => "ref" ++ toString (i + 1)))
    (h2 : im.aliasCounter = im.imports.length + 1) :
    (AddImport im p).imports.map Prod.snd =
      (List.range (AddImport im p).imports.length).map (fun i => "ref" ++ toString (i + 1)) ∧
    (AddImport im p).aliasCounter = (AddImport im p).imports.length + 1 := by
  unfold AddImport
  by_cases hc1 : (!goContains p "/") = true
  · simp only [hc1, if_true]
    exact ⟨h1, h2⟩
  · simp only [hc1, Bool.false_eq_true, if_false]
    by_cases hc2 : (goTrimSpace p == "") = true
    · simp only [hc2, if_true]
      exact ⟨h1, h2⟩
    · simp only [hc2, Bool.false_eq_true, if_false]
      by_cases hc3 : (mapLookup im.imports (goTrimChar (goTrimSpace p) '"')).isSome = true
      · simp only [hc3, if_true]
        exact ⟨h1, h2⟩
      · simp only [hc3, Bool.false_eq_true, if_false, mapInsertGo]
        constructor
        · rw [List.map_append, h1, h2]
          simp only [List.map_cons, List.map_nil, List.length_append, List.length_singleton]
          rw [List.range_succ, List.map_append]
          simp
        · simp [h2, List.length_append]

/-- The numbering invariant holds for every registration sequence started
from a fresh manager. -/
theorem foldl_addImport_numbering (paths : List String) :
    ∀ im : ImportManager,
    im.imports.map Prod.snd =
      (List.range im.imports.length).map (fun i => "ref" ++ toString (i + 1)) →
    im.aliasCounter = im.imports.length + 1 →
    (paths.foldl AddImport im).imports.map Prod.snd =
      (List.range (paths.foldl AddImport im).imports.length).map
        (fun i => "ref" ++ toString (i + 1)) ∧
    (paths.foldl AddImport im).aliasCounter =
      (paths.foldl AddImport im).imports.length + 1 := by
  induction paths with
  | nil => intro im h1 h2; exact ⟨h1, h2⟩
  | cons p rest ih =>
    intro im h1 h2
    have h := addImport_numbering im p h1 h2
    exact ih (AddImport im p) h.1 h.2

/-- Ten registered paths. -/
def paths10 : List String :=
  ["p/1", "p/2", "p/3", "p/4", "p/5", "p/6", "p/7", "p/8", "p/9", "p/10"]

def im10 : ImportManager := paths10.foldl AddImport NewImportManager

/-- A body text that references only the aliases `ref2`, `ref5`, `ref9`. -/
def body3 : String := "x := ref2.A(ref5.B\x7b\x7d, ref9.C)"

/-- C10-sized instance of `RenderImports` used below: exactly three lines. -/
def expected3 : String :=
  "import (\n\tref2 \"p/2\"\n\tref5 \"p/5\"\n\tref9 \"p/9\"\n)"

/-- C7: confirmed.  (1) For any iteration order of the import map, the
rendered block holds exactly the lines of the registered paths whose alias
followed by a dot occurs in the body, one line each; (2) registration is
idempotent; (3) aliases are `ref1, ref2, …` assigned in first-seen order,
with the counter one past the table size; (4) a path without a separator is
ignored; (5) the concrete ten-registered/three-referenced instance renders
exactly three import lines. -/
theorem C7_import_rendering :
    (∀ (im : ImportManager) (order : List (String × String)) (body : String),
      order.Perm im.imports → im.imports ≠ [] →
      ∃ lines, RenderImports im order body = "import (\n" ++ goJoin lines "\n" ++ "\n)" ∧
        lines.Perm ((im.imports.filter
          (fun p => goContains body (p.2 ++ "."))).map importLineOf)) ∧
    (∀ (im : ImportManager) (p : String), AddImport (AddImport im p) p = AddImport im p) ∧
    (∀ paths : List String,
      (paths.foldl AddImport NewImportManager).imports.map Prod.snd =
        (List.range (paths.foldl AddImport NewImportManager).imports.length).map
          (fun i => "ref" ++ toString (i + 1)) ∧
      (paths.foldl AddImport NewImportManager).aliasCounter =
        (paths.foldl AddImport NewImportManager).imports.length + 1) ∧
    (∀ (im : ImportManager) (p : String), goContains p "/" = false → AddImport im p = im) ∧
    RenderImports im10 im10.imports body3 = expected3 := by
  refine ⟨?_, addImport_idem, ?_, ?_, rfl⟩
  · intro im order body hperm hne
    unfold RenderImports
    have hlen : (im.imports.length == 0) = false := by
      cases him : im.imports with
      | nil => exact absurd him hne
      | cons a l => simp [him]
    simp only [hlen, Bool.false_eq_true, if_false]
    exact ⟨_, rfl, (hperm.filter _).map _⟩
  · intro paths
    exact foldl_addImport_numbering paths NewImportManager rfl rfl
  · intro im p h
    unfold AddImport
    simp [h]

/-- Witness for C7 at the ten-path fixture, iterating in insertion order. -/
theorem C7_witness :
    ∃ lines, RenderImports im10 im10.imports body3 =
        "import (\n" ++ goJoin lines "\n" ++ "\n)" ∧
      lines.Perm ((im10.imports.filter
        (fun p => goContains body3 (p.2 ++ "."))).map importLineOf) :=
  C7_import_rendering.1 im10 im10.imports body3 (List.Perm.refl _) (by decide)

/-- Witness for C10 at the tag `json:"id,omitempty"`. -/
theorem C10_witness :
    tagValue "json:\"id,omitempty\"" "json" = if ("id" : String) == "-" then "" else "id" :=
  C10_tag_first_comma.1 "json:\"id,omitempty\"" "json" "id" "omitempty" rfl rfl

/-! ## C5 — conversion resolution order -/

theorem findConvInList_eq_find (im : ImportManager)
    (s d : TypeWithImportsTemplate) (l : List Conversion) :
    findConvInList im s d l =
      (l.find? (fun c => equalsFunc im c s d || reverseEqualsFunc im c s d)).map
        (fun c => (c, !equalsFunc im c s d)) := by
  induction l with
  | nil => rfl
  | cons c rest ih =>
    simp only [findConvInList, List.find?]
    by_cases h1 : equalsFunc im c s d = true
    · simp [h1]
    · by_cases h2 : reverseEqualsFunc im c s d = true
      · simp [h1, h2]
      · simp [h1, h2, ih]

/-- A mapping-local and a global rule for the same `int → string` pair. -/
def convLocal : Conversion :=
  { sourceType := "int", destType := "string",
    conversion := ⟨"\x7b\x7b .Dest \x7d\x7d = local(\x7b\x7b .Source \x7d\x7d)", false⟩,
    reverseConversion := ⟨"", false⟩, imports := [] }

def convGlobal : Conversion :=
  { sourceType := "int", destType := "string",
    conversion := ⟨"\x7b\x7b .Dest \x7d\x7d = global(\x7b\x7b .Source \x7d\x7d)", false⟩,
    reverseConversion := ⟨"", false⟩, imports := [] }

/-- C5: confirmed.  (1) Resolution returns the first rule of the
local-then-global concatenation matching forward or reverse, with the
reverse flag set exactly when the forward test fails; (2) a rule without a
reverse template is never reverse-eligible; (3) with no matching rule the
field is assigned by direct expression copy; (4) on the concrete pair
matched by both a local and a global rule, the local rule wins. -/
theorem C5_conversion_resolution :
    (∀ (im : ImportManager) (s d : TypeWithImportsTemplate)
      (conversions customConversions : List Conversion),
      findConversion im s d conversions customConversions =
        ((customConversions ++ conversions).find?
          (fun c => equalsFunc im c s d || reverseEqualsFunc im c s d)).map
          (fun c => (c, !equalsFunc im c s d))) ∧
    (∀ (im : ImportManager) (c : Conversion) (s d : TypeWithImportsTemplate),
      c.reverseConversion.tmpl = "" → reverseEqualsFunc im c s d = false) ∧
    (∀ (g : Generator) (s dest : FieldDefinition)
      (conversions customConversions : List Conversion),
      findConversion g.importManager s.type dest.type conversions customConversions = none →
      assignmentLine g (some s) dest conversions customConversions none =
        ("dst." ++ dest.name ++ " = " ++ ("src." ++ s.name), false)) ∧
    findConversion NewImportManager ⟨"int", []⟩ ⟨"string", []⟩ [convGlobal] [convLocal] =
      some (convLocal, false) := by
  refine ⟨?_, ?_, ?_, rfl⟩
  · intro im s d conversions customConversions
    unfold findConversion
    rw [findConvInList_eq_find, findConvInList_eq_find, List.find?_append]
    cases (customConversions.find?
        (fun c => equalsFunc im c s d || reverseEqualsFunc im c s d)) <;> simp
  · intro im c s d h
    simp [reverseEqualsFunc, h]
  · intro g s dest conversions customConversions h
    simp [assignmentLine, h, assignmentWithConversion]

/-- Witness for C5: with no rules at all, the concrete field pair is
assigned by direct copy. -/
theorem C5_witness :
    assignmentLine gEmpty (some fSrcPtrInt) fDstInt [] [] none =
      ("dst." ++ fDstInt.name ++ " = " ++ ("src." ++ fSrcPtrInt.name), false) :=
  C5_conversion_resolution.2.2.1 gEmpty fSrcPtrInt fDstInt [] [] rfl

/-! ## C4 — field-matching precedence -/

/-- Source fields: `S1` tagged `x:"s1"`, `S2` untagged, and a field named
`D` like the destination. -/
def fS1 : FieldDefinition := { name := "S1", tag := "x:\"s1\"", type := ⟨"int", []⟩ }

def fS2 : FieldDefinition := { name := "S2", tag := "", type := ⟨"int", []⟩ }

def fDsame : FieldDefinition := { name := "D", tag := "", type := ⟨"int", []⟩ }

/-- The destination field `D`, tagged `x:"d"`. -/
def destD : FieldDefinition := { name := "D", tag := "x:\"d\"", type := ⟨"int", []⟩ }

def srcListC4 : List FieldDefinition := [fS1, fS2, fDsame]

/-- A tag-based override `dest_tag d ← source_tag s1` under tag key `x`. -/
def tagOv : CustomFieldMapping :=
  { sourceField := "", destField := "", sourceTag := "s1", destTag := "d", tag := "x" }

/-- A name-based override `D ← S2`. -/
def nameOv : CustomFieldMapping :=
  { sourceField := "S2", destField := "D", sourceTag := "", destTag := "", tag := "" }

/-- C4 counterexample: with a name-based override, a tag-based override and
a same-named source field all present, the code does not always choose the
name-based override's target — the override list is processed in
declaration order, so a tag-based override declared first wins (`S1` is
emitted, not the name-based target `S2`). -/
theorem C4_counterexample_tag_override_first :
    mapLookup (buildByName srcListC4) "S2" = some fS2 ∧
    mapLookup (buildByName srcListC4) "D" = some fDsame ∧
    findSourceForDest destD (buildByName srcListC4) (buildByTag srcListC4 "json")
      [tagOv, nameOv] "json" srcListC4 = some fS1 ∧
    ¬ fS1 = fS2 :=
  ⟨rfl, rfl, rfl, by decide⟩

theorem lookup_buildByName_aux (fields : List FieldDefinition) :
    ∀ (acc : List (String × FieldDefinition)) (n : String),
    mapLookup (fields.foldl (fun m f => mapInsertGo m f.name f) acc) n =
      (fields.reverse.find? (fun f => f.name == n)).or (mapLookup acc n) := by
  induction fields with
  | nil => intro acc n; simp
  | cons f fs ih =>
    intro acc n
    simp only [List.foldl_cons, List.reverse_cons, List.find?_append]
    rw [ih, mapInsertGo, mapLookup_append_single]
    rcases hfind : fs.reverse.find? (fun f => f.name == n) with _ | g
    · rw [hfind]
      simp only [Option.none_or]
      by_cases hn : (f.name == n) = true <;> simp [List.find?, hn]
    · rw [hfind]
      simp

theorem lookup_buildByTag_aux (tag : String) (fields : List FieldDefinition) :
    ∀ (acc : List (String × FieldDefinition)) (v : String), (v == "") = false →
    mapLookup (fields.foldl
      (fun m f =>
        let tv := tagValue f.tag tag
        if tv != "" then mapInsertGo m tv f else m) acc) v =
      (fields.reverse.find? (fun f => tagValue f.tag tag == v)).or (mapLookup acc v) := by
  induction fields with
  | nil => intro acc v _; simp
  | cons f fs ih =>
    intro acc v hv
    simp only [List.foldl_cons, List.reverse_cons, List.find?_append]
    by_cases htv : (tagValue f.tag tag != "") = true
    · simp only [htv, if_true]
      rw [ih _ _ hv, mapInsertGo, mapLookup_append_single]
      rcases hfind : fs.reverse.find? (fun f => tagValue f.tag tag == v) with _ | g
      · rw [hfind]
        simp only [Option.none_or]
        by_cases hn : (tagValue f.tag tag == v) = true <;> simp [List.find?, hn]
      · rw [hfind]
        simp
    · have hemp : tagValue f.tag tag = "" := by
        simpa using htv
      have hne : (tagValue f.tag tag == v) = false := by
        rw [hemp]
        rcases hb : (("" : String) == v) with _ | _
        · rfl
        · exact absurd (by simpa using (beq_iff_eq.mp hb).symm) (by simpa using hv)
      simp only [htv, Bool.false_eq_true, if_false]
      rw [ih _ _ hv]
      rcases hfind : fs.reverse.find? (fun f => tagValue f.tag tag == v) with _ | g
      · rw [hfind]
        simp [List.find?, hne]
      · rw [hfind]
        simp

/-- C4 amended: field matching applies overrides first, in declaration
order with the name-based form checked before the tag-based form inside a
single entry; then exact name equality; then tag equality, where an empty
tag value (absent annotation or `-`) never matches.  In the three-way
scenario the name-based override's target is chosen when that override is
declared first (first conjunct) — not unconditionally, as the
counterexample shows.  On duplicate names or tag values the last-declared
source field wins (last two conjuncts). -/
theorem C4_matching_precedence :
    findSourceForDest destD (buildByName srcListC4) (buildByTag srcListC4 "json")
      [nameOv, tagOv] "json" srcListC4 = some fS2 ∧
    (∀ (dest : FieldDefinition) (byName byTag : List (String × FieldDefinition))
      (ovs : List CustomFieldMapping) (tag : String) (fields : List FieldDefinition)
      (f : FieldDefinition),
      findOverride dest byName tag fields ovs = some f →
      findSourceForDest dest byName byTag ovs tag fields = some f) ∧
    (∀ (dest : FieldDefinition) (byName byTag : List (String × FieldDefinition))
      (ovs : List CustomFieldMapping) (tag : String) (fields : List FieldDefinition)
      (f : FieldDefinition),
      findOverride dest byName tag fields ovs = none →
      mapLookup byName dest.name = some f →
      findSourceForDest dest byName byTag ovs tag fields = some f) ∧
    (∀ (dest : FieldDefinition) (byName byTag : List (String × FieldDefinition))
      (ovs : List CustomFieldMapping) (tag : String) (fields : List FieldDefinition),
      findOverride dest byName tag fields ovs = none →
      mapLookup byName dest.name = none →
      (tagValue dest.tag tag != "") = true →
      findSourceForDest dest byName byTag ovs tag fields =
        mapLookup byTag (tagValue dest.tag tag)) ∧
    (∀ (dest : FieldDefinition) (byName byTag : List (String × FieldDefinition))
      (ovs : List CustomFieldMapping) (tag : String) (fields : List FieldDefinition),
      findOverride dest byName tag fields ovs = none →
      mapLookup byName dest.name = none →
      tagValue dest.tag tag = "" →
      findSourceForDest dest byName byTag ovs tag fields = none) ∧
    (∀ (fields : List FieldDefinition) (n : String),
      mapLookup (buildByName fields) n = fields.reverse.find? (fun f => f.name == n)) ∧
    (∀ (fields : List FieldDefinition) (tag v : String), (v == "") = false →
      mapLookup (buildByTag fields tag) v =
        fields.reverse.find? (fun f => tagValue f.tag tag == v)) := by
  refine ⟨rfl, ?_, ?_, ?_, ?_, ?_, ?_⟩
  · intro dest byName byTag ovs tag fields f h
    simp [findSourceForDest, h]
  · intro dest byName byTag ovs tag fields f h1 h2
    simp [findSourceForDest, h1, h2]
  · intro dest byName byTag ovs tag fields h1 h2 h3
    simp only [findSourceForDest, h1, h2, h3, if_true]
    cases mapLookup byTag (tagValue dest.tag tag) <;> rfl
  · intro dest byName byTag ovs tag fields h1 h2 h3
    have h4 : (tagValue dest.tag tag != "") = false := by simp [h3]
    simp [findSourceForDest, h1, h2, h4]
  · intro fields n
    have := lookup_buildByName_aux fields [] n
    simpa [buildByName, mapLookup] using this
  · intro fields tag v hv
    have := lookup_buildByTag_aux tag fields [] v hv
    simpa [buildByTag, mapLookup] using this

/-- Witness for C4 at concrete inputs: no override declared, so the
same-named source field is used; and the duplicate-tag lookup picks the
last-declared field. -/
theorem C4_witness :
    findSourceForDest destD (buildByName srcListC4) (buildByTag srcListC4 "json")
      [] "json" srcListC4 = some fDsame ∧
    mapLookup (buildByTag [fS1, fS1] "x") "s1" =
      ([fS1, fS1].reverse.find? (fun f => tagValue f.tag "x" == "s1")) :=
  ⟨C4_matching_precedence.2.2.1 destD (buildByName srcListC4) (buildByTag srcListC4 "json")
      [] "json" srcListC4 fDsame rfl rfl,
   C4_matching_precedence.2.2.2.2.2.2 [fS1, fS1] "x" "s1" rfl⟩

/-! ## C1 — determinism of `Generate` and the import-block order -/

def pkgM1 : Package :=
  { name := "models1", pkgPath := "a/m1", errors := [],
    goFiles := [⟨[], [("User", .structDecl [fldID])]⟩] }

def pkgM2 : Package :=
  { name := "models2", pkgPath := "b/m2", errors := [],
    goFiles := [⟨[], [("UserDTO", .structDecl [fldID])]⟩] }

def env1 : LoadEnv := [("a/m1", .pkgs [pkgM1]), ("b/m2", .pkgs [pkgM2])]

def mapping1 : Mapping :=
  { From := ⟨"\x7b\x7b .Import0 \x7d\x7d.User", ["a/m1"]⟩,
    To := ⟨"\x7b\x7b .Import0 \x7d\x7d.UserDTO", ["b/m2"]⟩,
    funcName := "", funcAdditionalArgs := [], customFieldMappings := [],
    customConversions := [], tag := "" }

def cfg1 : Config := { outPackageName := "main", mappings := [mapping1], debug := false }

def g1 : Generator := NewGenerator cfg1 ⟨[]⟩

/-- The import-map iteration order in insertion order, and reversed. -/
def order1 : List (String × String) := [("a/m1", "ref1"), ("b/m2", "ref2")]

def order2 : List (String × String) := [("b/m2", "ref2"), ("a/m1", "ref1")]

instance : DecidableEq (Except GenErr String) := fun a b =>
  match a, b with
  | .ok x, .ok y =>
    if h : x = y then .isTrue (by rw [h]) else .isFalse (by intro he; injection he; contradiction)
  | .error x, .error y =>
    if h : x = y then .isTrue (by rw [h]) else .isFalse (by intro he; injection he; contradiction)
  | .ok _, .error _ => .isFalse (by intro he; injection he)
  | .error _, .ok _ => .isFalse (by intro he; injection he)

/-- C1 counterexample: on a fixed config and environment, the registered
table is exactly `order1`, and `order2` is a permutation of it — both
are possible Go map iteration orders — and the two corresponding runs of
`Generate` produce different output bytes (the import lines are swapped).
Output is therefore not byte-identical across runs, the order of lines in
the rendered import block in particular. -/
theorem C1_not_byte_identical :
    (Generate env1 10 g1 order1).2.importManager.imports = order1 ∧
    order2.Perm order1 ∧
    ¬ (Generate env1 10 g1 order1).1 = (Generate env1 10 g1 order2).1 :=
  ⟨rfl, by decide, by decide⟩

/-- C1 amended: for one fixed iteration order of the import table the run
is a pure function of its inputs, and across any two iteration orders the
two runs either fail identically, or produce output texts that coincide
except for the order of the lines inside the rendered import block. -/
theorem C1_output_stable_up_to_import_order :
    ∀ (env : LoadEnv) (fuel : Nat) (g : Generator) (o1 o2 : List (String × String)),
    o1.Perm o2 →
    (Generate env fuel g o1).1 = (Generate env fuel g o2).1 ∨
    ∃ pre post l1 l2, l1.Perm l2 ∧
      (Generate env fuel g o1).1 = .ok (pre ++ goJoin l1 "\n" ++ post) ∧
      (Generate env fuel g o2).1 = .ok (pre ++ goJoin l2 "\n" ++ post) := by
  intro env fuel g o1 o2 h
  rcases hc : generateCore env fuel g with ⟨r, g'⟩
  rcases r with e | fc
  · left
    simp [Generate, hc]
  · by_cases hlen : (g'.importManager.imports.length == 0) = true
    · left
      simp [Generate, hc, RenderImports, hlen]
    · right
      refine ⟨"// Code generated by structmap; DO NOT EDIT.\npackage " ++
          g'.config.outPackageName ++ "\n\nimport (\n",
        "\n)\n\n" ++ fc ++ "\n",
        (o1.filter (fun p => goContains fc (p.2 ++ "."))).map importLineOf,
        (o2.filter (fun p => goContains fc (p.2 ++ "."))).map importLineOf,
        (h.filter _).map _, ?_, ?_⟩
      · simp only [Generate, hc, RenderImports, hlen, Bool.false_eq_true, if_false]
        simp only [String.append_assoc]
        rfl
      · simp only [Generate, hc, RenderImports, hlen, Bool.false_eq_true, if_false]
        simp only [String.append_assoc]
        rfl

/-- Witness for C1's amended theorem at the concrete fixture and the two
concrete iteration orders. -/
theorem C1_witness :
    (Generate env1 10 g1 order1).1 = (Generate env1 10 g1 order2).1 ∨
    ∃ pre post l1 l2, l1.Perm l2 ∧
      (Generate env1 10 g1 order1).1 = .ok (pre ++ goJoin l1 "\n" ++ post) ∧
      (Generate env1 10 g1 order2).1 = .ok (pre ++ goJoin l2 "\n" ++ post) :=
  C1_output_stable_up_to_import_order env1 10 g1 order1 order2 (by decide)

end Structmap
